import Mathlib

/-!
Verification of the HandballApp PDF extraction pipeline (`pdf_extractor.py`,
`pdf_to_images.py`) against its natural-language specification.

The Python source is shallowly embedded: page texts are `String`s, the
regular expressions of the source are embedded as deterministic scanners
(each regex of the source uses only character classes that are pairwise
disjoint at the backtracking boundaries, so the greedy/lazy backtracking
semantics of Python's `re` collapses to the deterministic maximal/minimal
munch implemented here; this is argued component by component in the
comments), and the file-system / PyMuPDF side effects are out of scope
except for the deterministic file-naming expressions, which are pure.
-/

namespace HandballApp

/-! ## Character model

Python string predicates restricted to the character sets that actually
occur in the keywords and inputs of the program: ASCII plus the German
letters Ä/Ö/Ü (and their lowercase forms) used by the source's literals.
-/

/-- Model of Python `str.lower()` / `re.IGNORECASE` folding for the
characters relevant to this program: ASCII `A`–`Z` and `Ä`, `Ö`, `Ü`
(each is lowercased by adding 32 to its code point). -/
def lc (c : Char) : Char :=
  if ('A' ≤ c && c ≤ 'Z') || c == 'Ä' || c == 'Ö' || c == 'Ü' then
    Char.ofNat (c.toNat + 32)
  else c

/-- Model of the regex class `\s` (Python `str` mode): the six ASCII
whitespace characters; also used for `str.strip()`. -/
def isWs (c : Char) : Bool :=
  c == ' ' || c == '\t' || c == '\n' || c == '\r' || c == '\x0b' || c == '\x0c'

/-- Model of the regex class `\d`: ASCII decimal digits. -/
def isDig (c : Char) : Bool :=
  '0' ≤ c && c ≤ '9'

/-- `int` of a digit string (e.g. from a `(\d+)` capture group). -/
def digitsToNat (l : List Char) : Nat :=
  l.foldl (fun a c => a * 10 + (c.toNat - 48)) 0

/-- Case-insensitive literal match: `pat` (given lowercase) against a
prefix of `s`; returns the rest of `s` on success. Models matching a
regex literal under `re.IGNORECASE`. -/
def matchCI : List Char → List Char → Option (List Char)
  | [], s => some s
  | _ :: _, [] => none
  | p :: ps, c :: cs => if lc c == p then matchCI ps cs else none

/-- Python substring test `needle in hay`. -/
def containsSub (n : List Char) : List Char → Bool
  | [] => n.isEmpty
  | c :: t => n.isPrefixOf (c :: t) || containsSub n t

/-- Python `str.strip()`: remove leading and trailing whitespace. -/
def pyStrip (l : List Char) : List Char :=
  ((l.dropWhile isWs).reverse.dropWhile isWs).reverse

/-! ## Session id from filename

`re.search(r'(\d+)', filename)`: the leftmost run of digits. -/

/-- Leftmost maximal digit run of a character list, if any
(`re.search(r'(\d+)', ...)`). -/
def firstDigitRun : List Char → Option (List Char)
  | [] => none
  | c :: t => if isDig c then some (c :: t.takeWhile isDig) else firstDigitRun t

/-- `int(re.search(r'(\d+)', filename).group(1))` in
`HandballPDFExtractor.__init__` (pdf_extractor.py lines 25-26). -/
def sessionIdOf (filename : String) : Option Nat :=
  (firstDigitRun filename.toList).map digitsToNat

/-! ## Drill-header scanner

Embedding of `re.finditer` with the pattern of pdf_extractor.py line 194:

  `(?:Übung|Drill|Teil)\s*(\d+)[:\s]+(.*?)(?:\((\d+)\s*Min)`  (IGNORECASE)

The scanner below is deterministic. This is faithful because every
backtracking boundary of the pattern is between disjoint character sets:
`\s*` is followed by `\d`, `(\d+)` by `[:\s]+`, and `[:\s]+` by the lazy
`(.*?)` whose continuation must start with `(` — a character that is
neither a digit nor in `[:\s]`, so giving characters back at any of these
boundaries can never create a match that maximal munch missed. The lazy
`(.*?)` (with `.` excluding newline, as no DOTALL flag is set) is the
minimal scan implemented by `lazyTitle`. The three keyword alternatives
start with distinct letters, so at most one applies at a position. -/

/-- One match of the drill-header pattern: the three capture groups.
`num` and `dur` are the raw captured digit strings. -/
structure HeaderMatch where
  num : List Char
  title : List Char
  dur : List Char
  deriving Repr, DecidableEq

/-- Match `\((\d+)\s*Min` (the pattern's mandatory tail, IGNORECASE on
`Min`); returns the duration digits and the rest after `Min` (the regex
match ends right after `Min`). -/
def matchDurTail (s : List Char) : Option (List Char × List Char) :=
  match s with
  | '(' :: r =>
    let ds := r.takeWhile isDig
    if ds.isEmpty then none
    else
      let r2 := (r.drop ds.length).dropWhile isWs
      match matchCI ['m', 'i', 'n'] r2 with
      | some r3 => some (ds, r3)
      | none => none
  | _ => none

/-- The lazy `(.*?)` scan: shortest run of non-newline characters after
which `\((\d+)\s*Min` matches. Accumulates the title (group 2) reversed. -/
def lazyTitle (acc : List Char) : List Char → Option (List Char × List Char × List Char)
  | [] => none
  | s@(c :: t) =>
    match matchDurTail s with
    | some (ds, rest) => some (acc.reverse, ds, rest)
    | none => if c == '\n' then none else lazyTitle (c :: acc) t

/-- Attempt the whole drill-header pattern at the current position;
returns the match and the remaining input after it. -/
def matchHeaderAt (s : List Char) : Option (HeaderMatch × List Char) :=
  let kw :=
    match matchCI ['ü', 'b', 'u', 'n', 'g'] s with
    | some r => some r
    | none =>
      match matchCI ['d', 'r', 'i', 'l', 'l'] s with
      | some r => some r
      | none => matchCI ['t', 'e', 'i', 'l'] s
  match kw with
  | none => none
  | some r1 =>
    let r2 := r1.dropWhile isWs
    let num := r2.takeWhile isDig
    if num.isEmpty then none
    else
      let r3 := r2.drop num.length
      let sep := r3.takeWhile (fun c => c == ':' || isWs c)
      if sep.isEmpty then none
      else
        match lazyTitle [] (r3.drop sep.length) with
        | some (title, ds, rest) => some (⟨num, title, ds⟩, rest)
        | none => none

/-- `re.finditer` scan: leftmost match first, continue after each match.
`fuel` bounds the number of scan steps; it is initialised to the input
length plus one, which always suffices since every step either advances
one character or consumes a (non-empty) match. -/
def scanAux (fuel : Nat) (s : List Char) : List HeaderMatch :=
  match fuel with
  | 0 => []
  | fuel + 1 =>
    match s with
    | [] => []
    | _ :: t =>
      match matchHeaderAt s with
      | some (m, rest) => m :: scanAux fuel rest
      | none => scanAux fuel t

/-- All drill-header matches of one page text, in order of appearance. -/
def scanHeaders (s : List Char) : List HeaderMatch :=
  scanAux (s.length + 1) s

/-! ## Phase classification (`_classify_phase`, lines 257-278) -/

/-- `any(word in title_lower for word in ws)`. -/
def containsAny (t : List Char) (ws : List String) : Bool :=
  ws.any (fun w => containsSub w.toList t)

/-- `HandballPDFExtractor._classify_phase`: the ordered keyword-group
if/elif chain over the lowercased title; default `"Angriff"`. -/
def classifyPhase (title : String) : String :=
  let tl := title.toList.map lc
  if containsAny tl ["einlaufen", "aufwärmen", "warm", "dehnen"] then "Warm-up"
  else if containsAny tl ["koordination", "lauf"] then "Koordination"
  else if containsAny tl ["ballgewöhnung", "ballhandling", "passen"] then "Ballhandling"
  else if containsAny tl ["torhüter", "torwart", "einwerfen"] then "Torhüter"
  else if containsAny tl ["wurfserie", "werfen"] then "Wurfserie"
  else if containsAny tl ["angriff", "offensive"] then "Angriff"
  else if containsAny tl ["abwehr", "defensive"] then "Abwehr"
  else if containsAny tl ["spiel", "abschluss"] then "Spiel"
  else "Angriff"

/-! ## Decimal formatting (f-strings) -/

/-- Decimal digit character of `d < 10`. -/
def digitChar (d : Nat) : Char := Char.ofNat (48 + d)

/-- Decimal digits of `n`, most significant first. Structural recursion
on `fuel`, which must exceed `n`; `n / 10 < n` for `n ≥ 10`, so the fuel
never runs out when `natRepr` below supplies `n + 1`. -/
def natReprAux : Nat → Nat → List Char
  | 0, _ => []
  | fuel + 1, n =>
    if n < 10 then [digitChar n]
    else natReprAux fuel (n / 10) ++ [digitChar (n % 10)]

/-- Decimal representation of a natural number, as Python `f"{n}"`
produces it for the non-negative ints of this program. -/
def natRepr (n : Nat) : List Char :=
  natReprAux (n + 1) n

/-- `f"{n}"` as a `String`. -/
def natReprS (n : Nat) : String := String.mk (natRepr n)

/-! ## Drill records (`extract_drills`, lines 186-255)

The embedded `Drill` keeps the fields the claims speak about. The
remaining fields of the Python dict are constants independent of the
input (`text`, `text_bullets`, `tags` — except `requires_goalkeeper`,
which in the default template is `phase == "Torhüter"` — and `images`,
which is filled by PyMuPDF I/O and never changes the fields below). -/

structure Drill where
  drill_id : String
  title : String
  duration_min : Nat
  cumulative_min : Nat
  phase : String
  source_page_start : Nat
  deriving Repr, DecidableEq, Inhabited

/-- The per-match loop body of `extract_drills` (lines 198-237), with the
running `cumulative_min` threaded explicitly. `duration = int(group(3))
if group(3) else 10` is mirrored verbatim even though the scanner can
never produce an empty `dur` (the duration part of the pattern is not
optional — the `else 10` branch of the source is dead code). -/
def buildDrills (sid : Nat) (cum : Nat) : List (Nat × HeaderMatch) → List Drill
  | [] => []
  | (pg, m) :: rest =>
    let dur := if m.dur.isEmpty then 10 else digitsToNat m.dur
    let cum2 := cum + dur
    { drill_id := natReprS sid ++ "-" ++ String.mk m.num,
      title := String.mk (pyStrip m.title),
      duration_min := dur,
      cumulative_min := cum2,
      phase := classifyPhase (String.mk (pyStrip m.title)),
      source_page_start := pg } :: buildDrills sid cum2 rest

/-- All header matches over the pages, tagged with their 1-based page
number (`enumerate(pages, start=1)` plus `re.finditer` per page). -/
def headerMatches (pages : List String) : List (Nat × HeaderMatch) :=
  pages.enum.flatMap (fun pt => (scanHeaders pt.2.toList).map (fun m => (pt.1 + 1, m)))

/-- The fixed phase table of `_create_default_drills` (lines 282-289). -/
def defaultPhases : List (String × String × Nat) :=
  [("Einlaufen/Dehnen", "Warm-up", 15),
   ("kleines Spiel", "Spiel", 10),
   ("Ballgewöhnung", "Ballhandling", 10),
   ("Torhüter einwerfen", "Torhüter", 10),
   ("Hauptteil", "Angriff", 35),
   ("Abschlussspiel", "Spiel", 10)]

/-- The loop of `_create_default_drills` (lines 294-326): 1-based index,
running cumulative duration, fixed origin page 2. -/
def defaultGo (sid idx cum : Nat) : List (String × String × Nat) → List Drill
  | [] => []
  | (title, phase, duration) :: rest =>
    let cum2 := cum + duration
    { drill_id := natReprS sid ++ "-" ++ natReprS idx,
      title := title,
      duration_min := duration,
      cumulative_min := cum2,
      phase := phase,
      source_page_start := 2 } :: defaultGo sid (idx + 1) cum2 rest

/-- `HandballPDFExtractor._create_default_drills`. -/
def defaultDrills (sid : Nat) : List Drill :=
  defaultGo sid 1 0 defaultPhases

/-- `HandballPDFExtractor.extract_drills`: header-matching path with the
default-template fallback when no drill was found (lines 239-241). The
image-distribution step (lines 244-253) only fills each drill's `images`
field and is omitted together with that field. -/
def extractDrills (sid : Nat) (pages : List String) : List Drill :=
  let ds := buildDrills sid 0 (headerMatches pages)
  if ds.isEmpty then defaultDrills sid else ds

/-! ## Equipment extraction (`extract_equipment`, lines 160-184)

Embedding of the two section regexes tried in order, with `break` after
the first one that matches anywhere in the text:

  1. `(?:Material|Benötigtes Material|Equipment):\s*\n(.*?)(?:\n\n|\nAblauf|\nGrundaufbau)`
  2. `(?:Material|Benötigtes Material):\s*([^\n]+(?:\n[^\n]+)*?)(?:\n\n|\nAblauf)`

both with `re.DOTALL | re.IGNORECASE`. Backtracking notes, mirrored by
the code below: in pattern 1, `\s*` is greedy and the following literal
`\n` makes the group start right after a newline inside the whitespace
run following the colon — greedy order tries the later newlines of that
run first (`nlCandidates`); the lazy `(.*?)` (DOTALL, so `.` crosses
newlines) stops at the first position where one of the three terminator
alternatives begins. In pattern 2, `[^\n]+` is greedy and never usefully
backtracks (the repetition and the terminators both require a following
`\n`, and giving back a non-newline character cannot produce one), so
the group is a walk over whole lines (`walkLines`) until a terminator;
`\s*` may give back trailing non-newline whitespace, tried longest-first
(`pattern2At`). -/

/-- First alternative of `(?:...)` that matches (patterns lowercase). -/
def matchAltsCI (alts : List (List Char)) (s : List Char) : Option (List Char) :=
  match alts with
  | [] => none
  | a :: rest =>
    match matchCI a s with
    | some r => some r
    | none => matchAltsCI rest s

/-- Indices of `'\n'` within a character list. -/
def nlIndices (l : List Char) : List Nat :=
  (List.range l.length).filter (fun i => l.getD i ' ' == '\n')

/-- Terminator test of pattern 1: `\n\n|\nAblauf|\nGrundaufbau`. -/
def isTerm1 (s : List Char) : Bool :=
  (matchCI ['\n', '\n'] s).isSome ||
  (matchCI ['\n', 'a', 'b', 'l', 'a', 'u', 'f'] s).isSome ||
  (matchCI ['\n', 'g', 'r', 'u', 'n', 'd', 'a', 'u', 'f', 'b', 'a', 'u'] s).isSome

/-- The lazy DOTALL group scan of pattern 1: shortest prefix after which
a terminator begins. -/
def lazyGroup1 (acc : List Char) : List Char → Option (List Char)
  | [] => none
  | c :: t =>
    if isTerm1 (c :: t) then some acc.reverse
    else lazyGroup1 (c :: acc) t

/-- First result of `f` along a list. -/
def firstSome (f : α → Option β) : List α → Option β
  | [] => none
  | a :: rest =>
    match f a with
    | some b => some b
    | none => firstSome f rest

/-- Attempt pattern 1 at the current position; returns group 1. -/
def pattern1At (s : List Char) : Option (List Char) :=
  match matchAltsCI
      ["material".toList, "benötigtes material".toList, "equipment".toList] s with
  | none => none
  | some r1 =>
    match r1 with
    | ':' :: r2 =>
      let w := r2.takeWhile isWs
      firstSome (fun k => lazyGroup1 [] (r2.drop (k + 1))) (nlIndices w).reverse
    | _ => none

/-- Terminator test of pattern 2: `\n\n|\nAblauf`. -/
def isTerm2 (s : List Char) : Bool :=
  (matchCI ['\n', '\n'] s).isSome ||
  (matchCI ['\n', 'a', 'b', 'l', 'a', 'u', 'f'] s).isSome

/-- The `[^\n]+(?:\n[^\n]+)*?` walk of pattern 2: whole lines until a
terminator begins; fails at end of input (the terminators need `\n`).
`fuel` bounds the recursion; `walkLines` seeds it with the input length,
which suffices since every step consumes at least one character. -/
def walkAux (fuel : Nat) (acc : List Char) (s : List Char) : Option (List Char) :=
  match fuel with
  | 0 => none
  | fuel + 1 =>
    if isTerm2 s then some acc
    else
      match s with
      | '\n' :: rest =>
        let seg := rest.takeWhile (fun c => !(c == '\n'))
        if seg.isEmpty then none
        else walkAux fuel (acc ++ '\n' :: seg) (rest.drop seg.length)
      | _ => none

/-- Group scan of pattern 2 starting at a non-newline character. -/
def walkLines (s : List Char) : Option (List Char) :=
  let seg := s.takeWhile (fun c => !(c == '\n'))
  if seg.isEmpty then none
  else walkAux (s.length + 1) seg (s.drop seg.length)

/-- Attempt pattern 2 at the current position; returns group 1. -/
def pattern2At (s : List Char) : Option (List Char) :=
  match matchAltsCI ["material".toList, "benötigtes material".toList] s with
  | none => none
  | some r1 =>
    match r1 with
    | ':' :: r2 =>
      let w := r2.takeWhile isWs
      firstSome (fun q => walkLines (r2.drop q)) (List.range (w.length + 1)).reverse
    | _ => none

/-- `re.search`: leftmost position where the pattern matches. -/
def searchAt (pat : List Char → Option (List Char)) : List Char → Option (List Char)
  | [] => none
  | s@(_ :: t) =>
    match pat s with
    | some g => some g
    | none => searchAt pat t

/-- `re.split(r'[\n•\-\u0001]', ...)`: split on the four separator
characters, keeping empty segments. -/
def isSplitChar (c : Char) : Bool :=
  c == '\n' || c == '•' || c == '-' || c == '\x01'

def splitItems : List Char → List (List Char)
  | [] => [[]]
  | c :: t =>
    match splitItems t with
    | [] => [[c]]
    | h :: rest => if isSplitChar c then [] :: h :: rest else (c :: h) :: rest

/-- `re.sub(r'^\d+[\.\)]\s*', '', item)`: drop a leading numeric list
prefix. `\d+` is greedy and cannot usefully backtrack (`[\.\)]` matches
no digit), so the digit run is maximal. -/
def stripLeadingNumber (s : List Char) : List Char :=
  let d := s.takeWhile isDig
  if d.isEmpty then s
  else
    match s.drop d.length with
    | '.' :: r => r.dropWhile isWs
    | ')' :: r => r.dropWhile isWs
    | _ => s

/-- The per-item cleanup of the `for item in items` loop (lines 176-181):
strip, drop numeric prefixes, keep items longer than 2 characters that do
not start with `http`. -/
def cleanItem (l : List Char) : Option String :=
  let s1 := pyStrip l
  let s2 := stripLeadingNumber s1
  if s2.length > 2 && !("http".toList.isPrefixOf s2) then some (String.mk s2)
  else none

/-- `HandballPDFExtractor.extract_equipment`: try the two patterns in
order, split and clean the matched block, default `["Bälle", "Hütchen"]`
when nothing (or nothing that survives cleaning) was found. -/
def extractEquipment (text : String) : List String :=
  let t := text.toList
  let found :=
    match searchAt pattern1At t with
    | some g => some g
    | none => searchAt pattern2At t
  match found with
  | none => ["Bälle", "Hütchen"]
  | some material =>
    let items := (splitItems material).filterMap cleanItem
    if items.isEmpty then ["Bälle", "Hütchen"] else items

/-- The tag dictionary of `_extract_equipment_tags` (lines 367-374), in
insertion order. -/
def tagMapping : List (String × List String) :=
  [("Hütchen", ["hütchen", "kegel"]),
   ("Ballkiste", ["ballkiste", "bälle"]),
   ("Reifen", ["reifen", "ring"]),
   ("Koordinationsleiter", ["koordinationsleiter", "leiter"]),
   ("Turnkisten", ["turnkiste", "kasten"]),
   ("Turnmatte", ["matte", "turnmatte"])]

/-- `HandballPDFExtractor._extract_equipment_tags`: keyword lookup in the
lower-cased space-joined equipment text. -/
def equipmentTags (equipment : List String) : List String :=
  let txt := (List.intercalate " ".toList (equipment.map String.toList)).map lc
  tagMapping.filterMap (fun tk =>
    if tk.2.any (fun k => containsSub k.toList txt) then some tk.1 else none)

/-! ## Output file naming (C8)

Pure naming expressions of `pdf_to_images.extract_all_pages_from_pdf`
(line 40) and `HandballPDFExtractor.extract_images_from_page` (line 55). -/

/-- Python `f"{n:03d}"` for non-negative `n`: zero-pad to width 3. -/
def pad3 (n : Nat) : List Char :=
  List.replicate (3 - (natRepr n).length) '0' ++ natRepr n

/-- `f"TE_{session_id:03d}_page_{page_number}.png"`
(pdf_to_images.py line 40, `page_number` 1-based); the literal parts are
spelled as explicit character lists. -/
def pageImageName (sid pageNumber : Nat) : String :=
  String.mk ('T' :: 'E' :: '_' ::
    (pad3 sid ++ ('_' :: 'p' :: 'a' :: 'g' :: 'e' :: '_' ::
      (natRepr pageNumber ++ ['.', 'p', 'n', 'g']))))

/-- `f"{self.session_id}-{page_num}_img{img_index}.{image_ext}"`
(pdf_extractor.py line 55, `page_num` and `img_index` 1-based). -/
def embeddedImageName (sid pageNum imgIndex : Nat) (ext : String) : String :=
  String.mk (natRepr sid ++ ('-' ::
    (natRepr pageNum ++ ('_' :: 'i' :: 'm' :: 'g' ::
      (natRepr imgIndex ++ ('.' :: ext.toList))))))

/-! ## Library merge (`update_library`, lines 387-454)

Sessions are modelled by their identifier plus a payload (`title`)
standing for the rest of the record, so that "not overwritten" is
expressible. The skip test of the source compares the id parsed from the
PDF filename against the ids already in the library (line 415); the
extracted session carries that same id, so the filter below is the same
test. `library['sessions'].sort(key=lambda x: x['id'])` is Python's
stable sort by id, embedded as a stable insertion sort (`sInsert` places
a new element after all existing elements with id less than or equal to
its own, exactly like `list.sort` keeps the earlier of two equal keys
first). -/

structure LSession where
  id : Nat
  title : String
  deriving Repr, DecidableEq

/-- Stable insertion into a sorted-by-id list. -/
def sInsert (s : LSession) : List LSession → List LSession
  | [] => [s]
  | t :: ts => if s.id < t.id then s :: t :: ts else t :: sInsert s ts

/-- Stable sort by id (`list.sort(key=lambda x: x['id'])`): elements are
inserted in their original order, each after the existing elements with
an equal id. -/
def sortById (l : List LSession) : List LSession :=
  l.foldl (fun acc s => sInsert s acc) []

/-- Adjacent-pairs sortedness check (ascending by id). -/
def isSortedById : List LSession → Bool
  | [] => true
  | [_] => true
  | a :: b :: t => decide (a.id ≤ b.id) && isSortedById (b :: t)

/-- The library update of `update_library`: skip new sessions whose id is
already present (lines 406-417), extend (line 435), sort by id
(line 438). `news` are the sessions extracted in this run, in processing
order. -/
def mergeNewSessions (lib news : List LSession) : List LSession :=
  let existing := lib.map LSession.id
  let kept := news.filter (fun s => !(existing.contains s.id))
  sortById (lib ++ kept)

/-! ## Per-document resource handling in the batch loop (C9)

Model of the `try`/`except` body of `update_library` (lines 421-432):
the constructor opens the PDF handle; on success the session is appended
and `extractor.close()` runs; when `extract_session` raises, control
jumps to the `except` block (lines 431-432), which only logs — the
`close()` call on line 425 is skipped and the handle stays open. The
state tracks appended sessions and the handles still open. -/

structure BatchState where
  sessions : List LSession
  openHandles : List String
  deriving Repr, DecidableEq

/-- One iteration of the `for pdf_file in pdf_files` loop, lines 421-432.
`res` is the outcome of `extractor.extract_session()`. -/
def processDoc (st : BatchState) (name : String) (res : Except String LSession) :
    BatchState :=
  match res with
  | .ok s => { sessions := st.sessions ++ [s], openHandles := st.openHandles }
  | .error _ => { sessions := st.sessions, openHandles := st.openHandles ++ [name] }

/-- The batch loop over all documents (in filename order). -/
def runBatch (docs : List (String × Except String LSession)) : BatchState :=
  docs.foldl (fun st d => processDoc st d.1 d.2) ⟨[], []⟩

/-- Whether a document's extraction failed. -/
def isErr : Except String LSession → Bool
  | .ok _ => false
  | .error _ => true

/-! ## Lemmas about the drill-building folds -/

theorem buildDrills_length (sid : Nat) :
    ∀ (ms : List (Nat × HeaderMatch)) (cum : Nat),
      (buildDrills sid cum ms).length = ms.length := by
  intro ms
  induction ms with
  | nil => intro cum; rfl
  | cons hd tl ih =>
    intro cum
    obtain ⟨pg, m⟩ := hd
    simp [buildDrills, ih]

theorem buildDrills_cum (sid : Nat) :
    ∀ (ms : List (Nat × HeaderMatch)) (cum i : Nat),
      i < (buildDrills sid cum ms).length →
      ((buildDrills sid cum ms).getD i default).cumulative_min
        = cum + (((buildDrills sid cum ms).take (i + 1)).map Drill.duration_min).sum := by
  intro ms
  induction ms with
  | nil => intro cum i h; simp [buildDrills] at h
  | cons hd tl ih =>
    intro cum i h
    obtain ⟨pg, m⟩ := hd
    cases i with
    | zero => simp [buildDrills]
    | succ i =>
      simp only [buildDrills, List.getD_cons_succ, List.take_succ_cons, List.map_cons,
        List.sum_cons]
      have h' : i < (buildDrills sid (cum + if m.dur.isEmpty then 10 else digitsToNat m.dur) tl).length := by
        simp only [buildDrills, List.length_cons] at h
        omega
      rw [ih (cum + if m.dur.isEmpty then 10 else digitsToNat m.dur) i h']
      omega

theorem defaultGo_cum (sid : Nat) :
    ∀ (ps : List (String × String × Nat)) (idx cum i : Nat),
      i < (defaultGo sid idx cum ps).length →
      ((defaultGo sid idx cum ps).getD i default).cumulative_min
        = cum + (((defaultGo sid idx cum ps).take (i + 1)).map Drill.duration_min).sum := by
  intro ps
  induction ps with
  | nil => intro idx cum i h; simp [defaultGo] at h
  | cons hd tl ih =>
    intro idx cum i h
    obtain ⟨title, phase, duration⟩ := hd
    cases i with
    | zero => simp [defaultGo]
    | succ i =>
      simp only [defaultGo, List.getD_cons_succ, List.take_succ_cons, List.map_cons,
        List.sum_cons]
      have h' : i < (defaultGo sid (idx + 1) (cum + duration) tl).length := by
        simp only [defaultGo, List.length_cons] at h
        omega
      rw [ih (idx + 1) (cum + duration) i h']
      omega

theorem sum_take_le_sum_take (L : List Nat) :
    ∀ i j, i ≤ j → (L.take i).sum ≤ (L.take j).sum := by
  induction L with
  | nil => intro i j _; simp
  | cons a t ih =>
    intro i j hij
    cases i with
    | zero => simp
    | succ i =>
      cases j with
      | zero => omega
      | succ j =>
        simp only [List.take_succ_cons, List.sum_cons]
        exact Nat.add_le_add_left (ih i j (by omega)) a

theorem extractDrills_cum (sid : Nat) (pages : List String) (i : Nat)
    (h : i < (extractDrills sid pages).length) :
    ((extractDrills sid pages).getD i default).cumulative_min
      = (((extractDrills sid pages).take (i + 1)).map Drill.duration_min).sum := by
  unfold extractDrills at h ⊢
  by_cases hb : (buildDrills sid 0 (headerMatches pages)).isEmpty
  · simp only [hb, if_true] at h ⊢
    have := defaultGo_cum sid defaultPhases 1 0 i h
    simpa [defaultDrills] using this
  · simp only [hb, if_false] at h ⊢
    have := buildDrills_cum sid (headerMatches pages) 0 i h
    simpa using this

theorem buildDrills_ids (sid : Nat) :
    ∀ (ms : List (Nat × HeaderMatch)) (cum : Nat),
      (buildDrills sid cum ms).map Drill.drill_id
        = ms.map (fun m => natReprS sid ++ "-" ++ String.mk m.2.num) := by
  intro ms
  induction ms with
  | nil => intro cum; rfl
  | cons hd tl ih =>
    intro cum
    obtain ⟨pg, m⟩ := hd
    simp [buildDrills, ih]

/-! ## Lemmas about the stable sort of the library merge -/

theorem sInsert_length (s : LSession) : ∀ l, (sInsert s l).length = l.length + 1 := by
  intro l
  induction l with
  | nil => rfl
  | cons t ts ih => by_cases h : s.id < t.id <;> simp [sInsert, h, ih]

theorem sortFold_length :
    ∀ (l acc : List LSession),
      (l.foldl (fun acc s => sInsert s acc) acc).length = acc.length + l.length := by
  intro l
  induction l with
  | nil => intro acc; simp
  | cons s ls ih =>
    intro acc
    rw [List.foldl_cons, ih (sInsert s acc), sInsert_length, List.length_cons]
    omega

theorem sortById_length (l : List LSession) : (sortById l).length = l.length := by
  simpa [sortById] using sortFold_length l []

theorem mem_sInsert {x s : LSession} : ∀ {l}, x ∈ sInsert s l → x = s ∨ x ∈ l := by
  intro l
  induction l with
  | nil => intro h; rw [sInsert] at h; exact Or.inl (List.mem_singleton.mp h)
  | cons t ts ih =>
    intro h
    rw [sInsert] at h
    by_cases hlt : s.id < t.id
    · rw [if_pos hlt] at h
      rcases List.mem_cons.mp h with h1 | h2
      · exact Or.inl h1
      · exact Or.inr h2
    · rw [if_neg hlt] at h
      rcases List.mem_cons.mp h with h1 | h2
      · exact Or.inr (h1 ▸ List.mem_cons_self t ts)
      · rcases ih h2 with h3 | h4
        · exact Or.inl h3
        · exact Or.inr (List.mem_cons_of_mem t h4)

theorem sInsert_pairwise {s : LSession} :
    ∀ {l}, List.Pairwise (fun a b : LSession => a.id ≤ b.id) l →
      List.Pairwise (fun a b : LSession => a.id ≤ b.id) (sInsert s l) := by
  intro l
  induction l with
  | nil => intro _; rw [sInsert]; exact List.pairwise_singleton _ s
  | cons t ts ih =>
    intro h
    rw [List.pairwise_cons] at h
    obtain ⟨ht, hts⟩ := h
    rw [sInsert]
    by_cases hlt : s.id < t.id
    · rw [if_pos hlt]
      refine List.Pairwise.cons ?_ (List.Pairwise.cons ht hts)
      intro b hb
      rcases List.mem_cons.mp hb with rfl | hbmem
      · omega
      · have := ht b hbmem
        omega
    · rw [if_neg hlt]
      refine List.Pairwise.cons ?_ (ih hts)
      intro b hb
      rcases mem_sInsert hb with rfl | hbmem
      · omega
      · exact ht b hbmem

theorem sortFold_pairwise :
    ∀ (l acc : List LSession),
      List.Pairwise (fun a b : LSession => a.id ≤ b.id) acc →
      List.Pairwise (fun a b : LSession => a.id ≤ b.id)
        (l.foldl (fun acc s => sInsert s acc) acc) := by
  intro l
  induction l with
  | nil => intro acc h; exact h
  | cons s ls ih =>
    intro acc h
    rw [List.foldl_cons]
    exact ih (sInsert s acc) (sInsert_pairwise h)

theorem sortById_pairwise (l : List LSession) :
    List.Pairwise (fun a b : LSession => a.id ≤ b.id) (sortById l) :=
  sortFold_pairwise l [] List.Pairwise.nil

theorem sInsert_of_all_le {s : LSession} :
    ∀ {l}, (∀ a ∈ l, a.id ≤ s.id) → sInsert s l = l ++ [s] := by
  intro l
  induction l with
  | nil => intro _; rfl
  | cons t ts ih =>
    intro h
    rw [sInsert, if_neg (by have := h t (List.mem_cons_self t ts); omega),
      ih (fun a ha => h a (List.mem_cons_of_mem t ha))]
    rfl

theorem sortFold_of_sorted :
    ∀ (l acc : List LSession),
      List.Pairwise (fun a b : LSession => a.id ≤ b.id) (acc ++ l) →
      l.foldl (fun acc s => sInsert s acc) acc = acc ++ l := by
  intro l
  induction l with
  | nil => intro acc _; simp
  | cons s ls ih =>
    intro acc h
    have hall : ∀ a ∈ acc, a.id ≤ s.id := by
      rw [List.pairwise_append] at h
      intro a ha
      exact h.2.2 a ha s (List.mem_cons_self s ls)
    have hassoc : (acc ++ [s]) ++ ls = acc ++ s :: ls := by simp
    have h2 : List.Pairwise (fun a b : LSession => a.id ≤ b.id) ((acc ++ [s]) ++ ls) := by
      rw [hassoc]; exact h
    rw [List.foldl_cons, sInsert_of_all_le hall, ih (acc ++ [s]) h2, hassoc]

theorem isSortedById_iff :
    ∀ l, isSortedById l = true ↔ List.Pairwise (fun a b : LSession => a.id ≤ b.id) l := by
  intro l
  induction l with
  | nil => simp [isSortedById]
  | cons a t ih =>
    cases t with
    | nil => simp [isSortedById]
    | cons b t2 =>
      simp only [isSortedById, Bool.and_eq_true, decide_eq_true_eq, ih]
      constructor
      · rintro ⟨hab, hp⟩
        refine List.Pairwise.cons ?_ hp
        intro x hx
        rcases List.mem_cons.mp hx with rfl | hx2
        · exact hab
        · rw [List.pairwise_cons] at hp
          have := hp.1 x hx2
          omega
      · intro hp
        rw [List.pairwise_cons] at hp
        exact ⟨hp.1 b (List.mem_cons_self b t2), hp.2⟩

/-! ## Lemmas about decimal formatting and the file names -/

theorem digitChar_toNat {d : Nat} (h : d < 10) : (digitChar d).toNat = 48 + d := by
  interval_cases d <;> decide

theorem isDig_digitChar {d : Nat} (h : d < 10) : isDig (digitChar d) = true := by
  interval_cases d <;> decide

theorem natReprAux_spec :
    ∀ fuel n, n < fuel →
      digitsToNat (natReprAux fuel n) = n
      ∧ natReprAux fuel n ≠ []
      ∧ ∀ c ∈ natReprAux fuel n, isDig c = true := by
  intro fuel
  induction fuel with
  | zero => intro n h; omega
  | succ fuel ih =>
    intro n h
    by_cases h10 : n < 10
    · simp only [natReprAux, if_pos h10]
      refine ⟨?_, by simp, ?_⟩
      · simp only [digitsToNat, List.foldl_cons, List.foldl_nil]
        rw [digitChar_toNat h10]
        omega
      · intro c hc
        rw [List.mem_singleton.mp hc]
        exact isDig_digitChar h10
    · have hdiv : n / 10 < fuel := by
        have : n / 10 < n := Nat.div_lt_self (by omega) (by omega)
        omega
      obtain ⟨ih1, _, ih3⟩ := ih (n / 10) hdiv
      simp only [natReprAux, if_neg h10]
      refine ⟨?_, by simp, ?_⟩
      · simp only [digitsToNat, List.foldl_append, List.foldl_cons, List.foldl_nil]
        simp only [digitsToNat] at ih1
        rw [ih1, digitChar_toNat (Nat.mod_lt n (by omega))]
        have := Nat.div_add_mod n 10
        omega
      · intro c hc
        rcases List.mem_append.mp hc with h1 | h2
        · exact ih3 c h1
        · rw [List.mem_singleton.mp h2]
          exact isDig_digitChar (Nat.mod_lt n (by omega))

theorem digitsToNat_natRepr (n : Nat) : digitsToNat (natRepr n) = n :=
  (natReprAux_spec (n + 1) n (by omega)).1

theorem natRepr_digits (n : Nat) : ∀ c ∈ natRepr n, isDig c = true :=
  (natReprAux_spec (n + 1) n (by omega)).2.2

theorem foldl_digits_zeros :
    ∀ k, List.foldl (fun a c => a * 10 + (c.toNat - 48)) 0 (List.replicate k '0') = 0 := by
  intro k
  induction k with
  | zero => rfl
  | succ k ih => simpa [List.replicate_succ] using ih

theorem digitsToNat_pad3 (n : Nat) : digitsToNat (pad3 n) = n := by
  have h0 := foldl_digits_zeros (3 - (natRepr n).length)
  simp only [pad3, digitsToNat, List.foldl_append, h0]
  exact digitsToNat_natRepr n

theorem pad3_digits (n : Nat) : ∀ c ∈ pad3 n, isDig c = true := by
  intro c hc
  rcases List.mem_append.mp hc with h1 | h2
  · rw [(List.mem_replicate.mp h1).2]
    decide
  · exact natRepr_digits n c h2

theorem takeWhile_run_append (p : Char → Bool) :
    ∀ (A : List Char) (b : Char) (R : List Char), (∀ c ∈ A, p c = true) → p b = false →
      (A ++ b :: R).takeWhile p = A ∧ (A ++ b :: R).dropWhile p = b :: R := by
  intro A
  induction A with
  | nil =>
    intro b R _ hb
    constructor
    · simp [List.takeWhile_cons, hb]
    · simp [List.dropWhile_cons, hb]
  | cons a A ih =>
    intro b R hA hb
    have ha : p a = true := hA a (List.mem_cons_self a A)
    have := ih b R (fun c hc => hA c (List.mem_cons_of_mem a hc)) hb
    constructor
    · simp [List.takeWhile_cons, ha, this.1]
    · simp [List.dropWhile_cons, ha, this.2]

theorem run_split {A A' R R' : List Char} {b b' : Char}
    (hA : ∀ c ∈ A, isDig c = true) (hA' : ∀ c ∈ A', isDig c = true)
    (hb : isDig b = false) (hb' : isDig b' = false)
    (h : A ++ b :: R = A' ++ b' :: R') : A = A' ∧ b = b' ∧ R = R' := by
  have t1 := takeWhile_run_append isDig A b R hA hb
  have t2 := takeWhile_run_append isDig A' b' R' hA' hb'
  have hAeq : A = A' := by rw [← t1.1, ← t2.1, h]
  have hR : b :: R = b' :: R' := by rw [← t1.2, ← t2.2, h]
  injection hR with hb2 hR2
  exact ⟨hAeq, hb2, hR2⟩

/-! ## Lemma about the batch loop -/

theorem batch_fold_spec :
    ∀ (docs : List (String × Except String LSession)) (st : BatchState),
      (docs.foldl (fun st d => processDoc st d.1 d.2) st).openHandles
        = st.openHandles ++ (docs.filter (fun d => isErr d.2)).map Prod.fst
      ∧ (docs.foldl (fun st d => processDoc st d.1 d.2) st).sessions
        = st.sessions ++ docs.filterMap (fun d => d.2.toOption) := by
  intro docs
  induction docs with
  | nil => intro st; simp
  | cons d rest ih =>
    intro st
    obtain ⟨name, res⟩ := d
    cases res with
    | ok s =>
      have := ih (processDoc st name (Except.ok s))
      simpa [processDoc, isErr, Except.toOption, List.append_assoc] using this
    | error e =>
      have := ih (processDoc st name (Except.error e))
      simpa [processDoc, isErr, Except.toOption, List.append_assoc] using this

/-! ## Claim theorems -/

/-- Claim C1: for every session produced by the Drill Segmenter (header
matching and default-template fallback alike), the cumulative duration of
the i-th drill equals the sum of the durations of drills 1..i in sequence
order, and the cumulative values are non-decreasing along the sequence. -/
theorem claim1_cumulative_is_running_sum (sid : Nat) (pages : List String) (i j : Nat)
    (hi : i < (extractDrills sid pages).length)
    (hj : j < (extractDrills sid pages).length) (hij : i ≤ j) :
    ((extractDrills sid pages).getD i default).cumulative_min
        = (((extractDrills sid pages).take (i + 1)).map Drill.duration_min).sum
      ∧ ((extractDrills sid pages).getD i default).cumulative_min
        ≤ ((extractDrills sid pages).getD j default).cumulative_min := by
  refine ⟨extractDrills_cum sid pages i hi, ?_⟩
  rw [extractDrills_cum sid pages i hi, extractDrills_cum sid pages j hj]
  rw [List.map_take, List.map_take]
  exact sum_take_le_sum_take _ (i + 1) (j + 1) (by omega)

/-- Witness for C1: the single-drill session of the end-to-end scenario. -/
theorem claim1_witness :
    ((extractDrills 184 ["Übung 1: Aufwärmen (15 Min)"]).getD 0 default).cumulative_min
        = (((extractDrills 184 ["Übung 1: Aufwärmen (15 Min)"]).take 1).map
            Drill.duration_min).sum
      ∧ ((extractDrills 184 ["Übung 1: Aufwärmen (15 Min)"]).getD 0 default).cumulative_min
        ≤ ((extractDrills 184 ["Übung 1: Aufwärmen (15 Min)"]).getD 0 default).cumulative_min :=
  claim1_cumulative_is_running_sum 184 ["Übung 1: Aufwärmen (15 Min)"] 0 0
    (by decide) (by decide) (Nat.le_refl 0)

/-- Claim C3: when the whole document yields zero drill-header matches,
the Segmenter output is exactly the fixed six-entry default template —
titles, phases and durations as listed, durations summing to 90, fixed
origin page 2 — and every session's drill list is non-empty. -/
theorem claim3_default_template (sid : Nat) (pages : List String)
    (h : headerMatches pages = []) :
    extractDrills sid pages = defaultDrills sid
      ∧ (defaultDrills sid).map (fun d => (d.title, d.phase, d.duration_min))
        = [("Einlaufen/Dehnen", "Warm-up", 15), ("kleines Spiel", "Spiel", 10),
           ("Ballgewöhnung", "Ballhandling", 10), ("Torhüter einwerfen", "Torhüter", 10),
           ("Hauptteil", "Angriff", 35), ("Abschlussspiel", "Spiel", 10)]
      ∧ ((defaultDrills sid).map Drill.duration_min).sum = 90
      ∧ (defaultDrills sid).map Drill.source_page_start = List.replicate 6 2
      ∧ ∀ pgs : List String, extractDrills sid pgs ≠ [] := by
  refine ⟨?_, rfl, rfl, rfl, ?_⟩
  · simp [extractDrills, h, buildDrills]
  · intro pgs hnil
    unfold extractDrills at hnil
    by_cases hb : (buildDrills sid 0 (headerMatches pgs)).isEmpty
    · rw [if_pos hb] at hnil
      exact absurd (congrArg List.length hnil) (by simp [defaultDrills, defaultGo, defaultPhases])
    · rw [if_neg hb] at hnil
      rw [hnil] at hb
      exact hb rfl

/-- Witness for C3: a one-page document without drill headers. -/
theorem claim3_witness :
    extractDrills 7 ["Hallo Welt"] = defaultDrills 7
      ∧ (defaultDrills 7).map (fun d => (d.title, d.phase, d.duration_min))
        = [("Einlaufen/Dehnen", "Warm-up", 15), ("kleines Spiel", "Spiel", 10),
           ("Ballgewöhnung", "Ballhandling", 10), ("Torhüter einwerfen", "Torhüter", 10),
           ("Hauptteil", "Angriff", 35), ("Abschlussspiel", "Spiel", 10)]
      ∧ ((defaultDrills 7).map Drill.duration_min).sum = 90
      ∧ (defaultDrills 7).map Drill.source_page_start = List.replicate 6 2
      ∧ ∀ pgs : List String, extractDrills 7 pgs ≠ [] :=
  claim3_default_template 7 ["Hallo Welt"] (by decide)

/-- Claim C4: phase classification tests the lowercased title against the
keyword groups in the fixed order of the source — a title matching both a
warm-up keyword and an offense keyword classifies as `"Warm-up"` (the
earlier group wins), and a title matching no group at all classifies as
the default `"Angriff"`. -/
theorem claim4_phase_priority :
    (∀ t : String,
        containsAny (t.toList.map lc) ["einlaufen", "aufwärmen", "warm", "dehnen"] = true →
        containsAny (t.toList.map lc) ["angriff", "offensive"] = true →
        classifyPhase t = "Warm-up")
    ∧ (∀ t : String,
        containsAny (t.toList.map lc) ["einlaufen", "aufwärmen", "warm", "dehnen"] = false →
        containsAny (t.toList.map lc) ["koordination", "lauf"] = false →
        containsAny (t.toList.map lc) ["ballgewöhnung", "ballhandling", "passen"] = false →
        containsAny (t.toList.map lc) ["torhüter", "torwart", "einwerfen"] = false →
        containsAny (t.toList.map lc) ["wurfserie", "werfen"] = false →
        containsAny (t.toList.map lc) ["angriff", "offensive"] = false →
        containsAny (t.toList.map lc) ["abwehr", "defensive"] = false →
        containsAny (t.toList.map lc) ["spiel", "abschluss"] = false →
        classifyPhase t = "Angriff") := by
  constructor
  · intro t h1 _
    simp only [String.toList] at h1
    simp [classifyPhase, h1]
  · intro t h1 h2 h3 h4 h5 h6 h7 h8
    simp only [String.toList] at h1 h2 h3 h4 h5 h6 h7 h8
    simp [classifyPhase, h1, h2, h3, h4, h5, h6, h7, h8]

/-- Witness for C4: a title holding a warm-up and an offense keyword, and
a title holding no keyword. -/
theorem claim4_witness :
    classifyPhase "Aufwärmen zum Angriff" = "Warm-up" ∧ classifyPhase "Taktik" = "Angriff" :=
  ⟨claim4_phase_priority.1 "Aufwärmen zum Angriff" (by decide) (by decide),
   claim4_phase_priority.2 "Taktik" (by decide) (by decide) (by decide) (by decide)
     (by decide) (by decide) (by decide) (by decide)⟩

/-- Claim C5: a document whose filename's first digit run is `184` and
whose single page text contains `"Übung 1: Aufwärmen (15 Min)"` produces
exactly one drill, with id `"184-1"`, duration 15, cumulative 15, phase
`"Warm-up"` and source page 1. -/
theorem claim5_end_to_end_session184 :
    sessionIdOf "TE_184.pdf" = some 184
      ∧ extractDrills 184 ["Trainingseinheit 184\nÜbung 1: Aufwärmen (15 Min)\nViel Spaß"]
        = [{ drill_id := "184-1", title := "Aufwärmen", duration_min := 15,
             cumulative_min := 15, phase := "Warm-up", source_page_start := 1 }] := by
  decide

/-- Claim C6 (code bug): a drill header without the `"(N Min)"` part,
such as `"Übung 2: Passen"`, is NOT matched by the header pattern — the
duration component of the regex is mandatory, so the `else 10` default of
the source is dead code; instead of one drill with `duration_min = 10`,
the Segmenter falls back to the six-entry default template (none of whose
drills carries the header's title). -/
theorem claim6_missing_duration_eval :
    headerMatches ["Übung 2: Passen"] = []
      ∧ extractDrills 184 ["Übung 2: Passen"] = defaultDrills 184
      ∧ ∀ d ∈ extractDrills 184 ["Übung 2: Passen"], d.title ≠ "Passen" := by
  decide

/-- Claim C10: in the header-matching path, every drill's id is the
session id, a hyphen, and the drill number captured from the header text
itself — so two headers bearing the same printed number yield identical
drill ids (uniqueness within a session is not guaranteed), as the
concrete two-header page shows. -/
theorem claim10_drill_id_from_header :
    (∀ (sid : Nat) (pages : List String),
      (buildDrills sid 0 (headerMatches pages)).map Drill.drill_id
        = (headerMatches pages).map (fun m => natReprS sid ++ "-" ++ String.mk m.2.num))
    ∧ (extractDrills 1 ["Übung 1: Erste (5 Min) Übung 1: Zweite (5 Min)"]).map
        Drill.drill_id = ["1-1", "1-1"] := by
  refine ⟨fun sid pages => buildDrills_ids sid (headerMatches pages) 0, ?_⟩
  decide

/-- Claim C2 refutation: merging a session whose identifier is already
present does NOT leave every library unchanged — the merge always
re-sorts, so an unsorted library is reordered even though the id-2
session is neither overwritten nor duplicated. -/
theorem claim2_counterexample :
    mergeNewSessions [⟨2, "B"⟩, ⟨1, "A"⟩] [⟨2, "X"⟩] = [⟨1, "A"⟩, ⟨2, "B"⟩]
      ∧ mergeNewSessions [⟨2, "B"⟩, ⟨1, "A"⟩] [⟨2, "X"⟩] ≠ [⟨2, "B"⟩, ⟨1, "A"⟩] := by
  decide

/-- Claim C2 (amended): provided the library's session list is sorted
ascending by identifier, merging a session whose identifier is already
present leaves the list unchanged (the existing session is not
overwritten, no duplicate is added); merging a session with a fresh
identifier increases the session count by exactly one and the result is
sorted ascending by identifier. -/
theorem claim2_merge_amended (lib : List LSession) (s : LSession) :
    (s.id ∈ lib.map LSession.id → isSortedById lib = true →
      mergeNewSessions lib [s] = lib)
    ∧ (s.id ∉ lib.map LSession.id →
      (mergeNewSessions lib [s]).length = lib.length + 1
        ∧ isSortedById (mergeNewSessions lib [s]) = true) := by
  constructor
  · intro hmem hsorted
    have hkept : [s].filter (fun x => !((lib.map LSession.id).contains x.id)) = [] := by
      have hx : ∃ a ∈ lib, a.id = s.id := List.mem_map.mp hmem
      simp [hx]
    have hp : List.Pairwise (fun a b : LSession => a.id ≤ b.id) ([] ++ lib) := by
      simpa using (isSortedById_iff lib).mp hsorted
    have h3 := sortFold_of_sorted lib [] hp
    simp only [List.nil_append] at h3
    simp only [mergeNewSessions, hkept, List.append_nil, sortById]
    exact h3
  · intro hmem
    have hkept : [s].filter (fun x => !((lib.map LSession.id).contains x.id)) = [s] := by
      simp
      intro x hx hxe
      exact hmem (List.mem_map.mpr ⟨x, hx, hxe⟩)
    constructor
    · simp only [mergeNewSessions, hkept]
      rw [sortById_length, List.length_append, List.length_cons, List.length_nil]
    · simp only [mergeNewSessions, hkept]
      exact (isSortedById_iff _).mpr (sortById_pairwise _)

/-- Witness for C2 (amended): a sorted two-session library; id 3 is
already present, id 2 is fresh. -/
theorem claim2_witness :
    mergeNewSessions [⟨1, "A"⟩, ⟨3, "C"⟩] [⟨3, "X"⟩] = [⟨1, "A"⟩, ⟨3, "C"⟩]
      ∧ (mergeNewSessions [⟨1, "A"⟩, ⟨3, "C"⟩] [⟨2, "B"⟩]).length
          = ([⟨1, "A"⟩, ⟨3, "C"⟩] : List LSession).length + 1
      ∧ isSortedById (mergeNewSessions [⟨1, "A"⟩, ⟨3, "C"⟩] [⟨2, "B"⟩]) = true := by
  refine ⟨(claim2_merge_amended [⟨1, "A"⟩, ⟨3, "C"⟩] ⟨3, "X"⟩).1 (by decide) (by decide), ?_⟩
  have := (claim2_merge_amended [⟨1, "A"⟩, ⟨3, "C"⟩] ⟨2, "B"⟩).2 (by decide)
  exact this

/-- Claim C7 refutation: a document text whose equipment section contains
`"Hütchen, Bälle, Reifen"` does NOT yield the three-element list — the
item split is on newlines/bullets/hyphens/`\x01`, never on commas, so the
whole line stays one entry. -/
theorem claim7_counterexample :
    extractEquipment "TE 184\nMaterial:\nHütchen, Bälle, Reifen\n\nAblauf: Spiel"
        = ["Hütchen, Bälle, Reifen"]
      ∧ extractEquipment "TE 184\nMaterial:\nHütchen, Bälle, Reifen\n\nAblauf: Spiel"
        ≠ ["Hütchen", "Bälle", "Reifen"] := by
  decide

/-- Claim C7 (amended): for a document whose Material section line is
`"Hütchen, Bälle, Reifen"`, equipment extraction returns the one-element
list `["Hütchen, Bälle, Reifen"]` (commas are not split separators), and
the derived equipment tags include both the cone tag `"Hütchen"` and the
ring tag `"Reifen"` (alongside `"Ballkiste"` from `"bälle"`). -/
theorem claim7_equipment_amended :
    extractEquipment "TE 184\nMaterial:\nHütchen, Bälle, Reifen\n\nAblauf: Spiel"
        = ["Hütchen, Bälle, Reifen"]
      ∧ equipmentTags ["Hütchen, Bälle, Reifen"] = ["Hütchen", "Ballkiste", "Reifen"]
      ∧ "Hütchen" ∈ equipmentTags ["Hütchen, Bälle, Reifen"]
      ∧ "Reifen" ∈ equipmentTags ["Hütchen, Bälle, Reifen"] := by
  decide

/-- Claim C8 refutation: the full-page render is NOT written under
`"{session_id:03d}_page_{page_number}.png"` — the code prefixes `"TE_"`. -/
theorem claim8_counterexample :
    pageImageName 184 1 = "TE_184_page_1.png" ∧ pageImageName 184 1 ≠ "184_page_1.png" := by
  decide

/-- Claim C8 (amended): full-page renders are named
`"TE_{session_id:03d}_page_{page_number}.png"` and embedded extractions
`"{session_id}-{page_number}_img{index}.{ext}"` (1-based page and index);
both namings are deterministic (they are functions) and collision-free —
equal names force equal session/page/index/extension. -/
theorem claim8_naming_amended :
    (∀ sid p sid' p', pageImageName sid p = pageImageName sid' p' → sid = sid' ∧ p = p')
    ∧ (∀ sid p i ext sid' p' i' ext',
        embeddedImageName sid p i ext = embeddedImageName sid' p' i' ext' →
        sid = sid' ∧ p = p' ∧ i = i' ∧ ext = ext')
    ∧ pageImageName 184 5 = "TE_184_page_5.png"
    ∧ embeddedImageName 184 5 2 "png" = "184-5_img2.png" := by
  refine ⟨?_, ?_, by decide, by decide⟩
  · intro sid p sid' p' h
    have h1 : 'T' :: 'E' :: '_' ::
          (pad3 sid ++ ('_' :: 'p' :: 'a' :: 'g' :: 'e' :: '_' ::
            (natRepr p ++ ['.', 'p', 'n', 'g'])))
        = 'T' :: 'E' :: '_' ::
          (pad3 sid' ++ ('_' :: 'p' :: 'a' :: 'g' :: 'e' :: '_' ::
            (natRepr p' ++ ['.', 'p', 'n', 'g']))) :=
      congrArg String.data h
    simp only [List.cons.injEq, true_and] at h1
    obtain ⟨hpad, _, hrest⟩ :=
      run_split (pad3_digits sid) (pad3_digits sid') (by decide) (by decide) h1
    have hsid : sid = sid' := by
      have := congrArg digitsToNat hpad
      rwa [digitsToNat_pad3, digitsToNat_pad3] at this
    simp only [List.cons.injEq, true_and] at hrest
    obtain ⟨hnp, _, _⟩ :=
      run_split (natRepr_digits p) (natRepr_digits p') (by decide) (by decide) hrest
    have hp : p = p' := by
      have := congrArg digitsToNat hnp
      rwa [digitsToNat_natRepr, digitsToNat_natRepr] at this
    exact ⟨hsid, hp⟩
  · intro sid p i ext sid' p' i' ext' h
    have h1 : natRepr sid ++ ('-' ::
          (natRepr p ++ ('_' :: 'i' :: 'm' :: 'g' ::
            (natRepr i ++ ('.' :: ext.toList)))))
        = natRepr sid' ++ ('-' ::
          (natRepr p' ++ ('_' :: 'i' :: 'm' :: 'g' ::
            (natRepr i' ++ ('.' :: ext'.toList))))) :=
      congrArg String.data h
    obtain ⟨hs, _, hrest⟩ :=
      run_split (natRepr_digits sid) (natRepr_digits sid') (by decide) (by decide) h1
    have hsid : sid = sid' := by
      have := congrArg digitsToNat hs
      rwa [digitsToNat_natRepr, digitsToNat_natRepr] at this
    obtain ⟨hpp, _, hrest2⟩ :=
      run_split (natRepr_digits p) (natRepr_digits p') (by decide) (by decide) hrest
    have hp : p = p' := by
      have := congrArg digitsToNat hpp
      rwa [digitsToNat_natRepr, digitsToNat_natRepr] at this
    simp only [List.cons.injEq, true_and] at hrest2
    obtain ⟨hii, _, hext⟩ :=
      run_split (natRepr_digits i) (natRepr_digits i') (by decide) (by decide) hrest2
    have hi : i = i' := by
      have := congrArg digitsToNat hii
      rwa [digitsToNat_natRepr, digitsToNat_natRepr] at this
    have hexts : ext = ext' := congrArg String.mk hext
    exact ⟨hsid, hp, hi, hexts⟩

/-- Witness for C8 (amended): applying the injectivity parts at equal
concrete names. -/
theorem claim8_witness :
    (184 = 184 ∧ 5 = 5) ∧ (184 = 184 ∧ 7 = 7 ∧ 2 = 2 ∧ "png" = "png") :=
  ⟨claim8_naming_amended.1 184 5 184 5 rfl,
   claim8_naming_amended.2.1 184 7 2 "png" 184 7 2 "png" rfl⟩

/-- Claim C9 refutation: in a batch run where the first document's
extraction raises, the run moves on to the second document (which is
extracted and appended) while the first document's PDF handle is still
open — the `except` block only logs and never calls `close()`. -/
theorem claim9_counterexample :
    (runBatch [("a.pdf", Except.error "boom"), ("b.pdf", Except.ok ⟨2, "S"⟩)]).openHandles
        = ["a.pdf"]
      ∧ (runBatch [("a.pdf", Except.error "boom"),
          ("b.pdf", Except.ok ⟨2, "S"⟩)]).sessions = [⟨2, "S"⟩] := by
  decide

/-- Claim C9 (amended): after a batch run, the handles left open are
exactly those of the documents whose extraction raised — a successfully
extracted document's handle is closed before the run moves on, a failing
document's handle is leaked (only logged, never closed) — and the
sessions collected are exactly those of the successful documents (the
batch is not aborted by a failure). -/
theorem claim9_handles_amended (docs : List (String × Except String LSession)) :
    (runBatch docs).openHandles = (docs.filter (fun d => isErr d.2)).map Prod.fst
      ∧ (runBatch docs).sessions = docs.filterMap (fun d => d.2.toOption) := by
  have := batch_fold_spec docs ⟨[], []⟩
  simpa [runBatch] using this

end HandballApp
